import Mathlib

/-!
# Verification of the gohome automata service (services/automata/main.go)

A shallow embedding, in Lean, of the rules-engine service of the gohome
home-automation hub, together with theorems settling the specification
claims about it.

Modelling conventions:
* Go `interface{}` values crossing the expression-function boundary are the
  inductive `GoValue`; Go `float64` is modelled as `ℚ` (only ordering and
  field arithmetic matter to the claims settled here).
* Go maps are modelled as association lists with `mapInsert` /
  `lookupA` giving Go's update/lookup semantics (at most one binding per
  key once keys are nodup).
* A Go run-time panic (failed single-value type assertion, out-of-range
  index) is a distinguished outcome (`Outcome.panicked`, or `none` for
  functions modelled in `Option`), never silently collapsed into an error
  value.
* Third-party libraries (`govaluate`, `gofsm`, the bus) are abstraction
  boundaries: their results enter the model as explicit parameters or
  small result types, while every line of control flow of
  `services/automata/main.go` itself is translated faithfully.
-/

namespace Gohome

/-- Go `interface{}` values as they appear at the expression-function
boundary. `float` models Go `float64` as a rational; `context` marks the
`ChangeContext` value injected as implicit first argument of actions;
`other` covers any further dynamic type (e.g. `time.Time`). -/
inductive GoValue where
  | str (s : String)
  | int (n : Int)
  | int64 (n : Int)
  | float (q : ℚ)
  | bool (b : Bool)
  | context
  | other
deriving DecidableEq, Repr

/-- A bus event as constructed by `pubsub.NewEvent`: topic, named fields and
the retained flag (timestamps are irrelevant to the claims and omitted). -/
structure Event where
  topic : String
  fields : List (String × GoValue)
  retained : Bool := false
deriving DecidableEq, Repr

/-- Association-list lookup, i.e. Go map read (`m[k]`), first binding wins. -/
def lookupA {α : Type} (m : List (String × α)) (k : String) : Option α :=
  match m with
  | [] => none
  | (k', v) :: t => if k' = k then some v else lookupA t k

/-- Go map write `m[k] = v`: replaces the binding if present, else appends. -/
def mapInsert {α : Type} (m : List (String × α)) (k : String) (v : α) :
    List (String × α) :=
  match m with
  | [] => [(k, v)]
  | (k', v') :: t => if k' = k then (k, v) :: t else (k', v') :: mapInsert t k v

/-- Go map delete `delete(m, k)`. -/
def mapErase {α : Type} (m : List (String × α)) (k : String) :
    List (String × α) :=
  match m with
  | [] => []
  | (k', v') :: t => if k' = k then t else (k', v') :: mapErase t k

/-- Number of bindings an association list holds for a key. -/
def countKey {α : Type} (m : List (String × α)) (k : String) : Nat :=
  (m.filter (fun p => p.1 = k)).length

/-- The keys of an association list are pairwise distinct (true of every
value a Go map can take). -/
def nodupKeys {α : Type} (m : List (String × α)) : Prop :=
  (m.map Prod.fst).Nodup

/-! ## Guard evaluation: `EventContext.Match`

`Match` hands the guard text to `ParseCached` (govaluate compilation) and
then to `Expr.Eval`.  Compilation and the evaluator proper are
third-party, but `ParseCached` registers the nine first-party functions
of `defineFunctions` into every compiled guard, and `Eval` calls them
during evaluation: a guard such as `State(5.0)` or `Log("a", "b")`
reaches a builtin whose unchecked single-value type assertion panics
(see `runBuiltin` below), and neither govaluate nor `Match` nor the
`Run` loop recovers a panic, so it unwinds through `Eval` and `Match`.
The branches `Match` itself implements: parse error and evaluation error
are logged and give `false`; on a non-boolean result the two-value
assertion `result, ok := result.(bool)` redeclares the `interface{}`
variable, storing the zero value `false`, so the final
`return result.(bool)` always succeeds and yields `false`. -/

/-- Outcome of compiling and then evaluating a guard expression.
`parseError`/`evalError` are govaluate's own failures (third-party
boundary); `builtinPanic` is a panic raised by one of the first-party
registered functions invoked during evaluation (modelled concretely by
`runBuiltin` returning `Outcome.panicked`); `value v` is a completed
evaluation. -/
inductive EvalOutcome where
  | parseError
  | evalError
  | builtinPanic
  | value (v : GoValue)
deriving DecidableEq, Repr

/-- `EventContext.Match` (main.go): parse error → log, `some false`;
evaluation error → log, `some false`; non-boolean result → log, the
failed two-value assertion leaves the zero value, `some false`; boolean
result → that boolean.  A builtin panic during `expr.Eval` is not
recovered anywhere (no defer/recover in main.go), so `Match` never
returns — modelled as `none`. -/
def eventContextMatch (o : EvalOutcome) : Option Bool :=
  match o with
  | .parseError => some false
  | .evalError => some false
  | .builtinPanic => none
  | .value (.bool b) => some b
  | .value _ => some false

/-! ## `checkArguments` and the built-in function library -/

/-- A declared argument type of `checkArguments`: `""` (anything, used for
the context position), `"string"`, `"float64"`. -/
inductive ArgType where
  | any
  | string
  | float64
deriving DecidableEq, Repr

/-- The typed errors the function library returns (`fmt.Errorf` /
`errors.New` values in the Go code). -/
inductive FnError where
  | arity (expected got : Nat)
  | typeMismatch (expected : ArgType) (position : Nat)
  | stateArity
  | stateNotFound (name : String)
  | randomTimerRange
deriving DecidableEq, Repr

/-- One iteration of the `checkArguments` loop: position `i`, declared type
`t`, argument `arg`; `float64` positions coerce `int`/`int64` in place. -/
def coerceOne (t : ArgType) (arg : GoValue) (i : Nat) : Except FnError GoValue :=
  match t with
  | .any => .ok arg
  | .string =>
    match arg with
    | .str s => .ok (.str s)
    | _ => .error (.typeMismatch .string i)
  | .float64 =>
    match arg with
    | .int n => .ok (.float (n : ℚ))
    | .int64 n => .ok (.float (n : ℚ))
    | .float q => .ok (.float q)
    | _ => .error (.typeMismatch .float64 i)

/-- The loop of `checkArguments`, returning the (in Go: in-place) coerced
argument list or the first mismatch. -/
def checkArgsLoop : List GoValue → List ArgType → Nat → Except FnError (List GoValue)
  | [], _, _ => .ok []
  | _ :: _, [], _ => .ok []
  | a :: as, t :: ts, i =>
    match coerceOne t a i with
    | .error e => .error e
    | .ok a' =>
      match checkArgsLoop as ts (i + 1) with
      | .error e => .error e
      | .ok rest => .ok (a' :: rest)

/-- `checkArguments(args, types...)` (main.go): arity first, then the
per-position loop. -/
def checkArguments (args : List GoValue) (types : List ArgType) :
    Except FnError (List GoValue) :=
  if args.length ≠ types.length then .error (.arity types.length args.length)
  else checkArgsLoop args types 0

/-- The coercion `checkArguments` applies at a `float64` position. -/
def floatCoerce : GoValue → GoValue
  | .int n => .float (n : ℚ)
  | .int64 n => .float (n : ℚ)
  | v => v

/-- The side effects a built-in function may perform, recorded
symbolically at the bus / log / exec boundary. -/
inductive Effect where
  | alertSent (msg target : String)
  | commandSent (text : String)
  | logAppended (msg : String)
  | queryIssued (q : String)
  | scriptStarted (cmd : String)
  | publish (ev : Event)
deriving DecidableEq, Repr

/-- Result of calling a built-in expression function: a value with its
effects, a typed Go error, or a run-time panic (failed single-value type
assertion). -/
inductive Outcome where
  | ok (v : Option GoValue)
  | err (e : FnError)
  | panicked
deriving DecidableEq, Repr

/-- The nine built-in functions registered in `defineFunctions`. -/
inductive Builtin where
  | state
  | alert
  | command
  | log
  | query
  | script
  | snapshot
  | startTimer
  | randomTimer
deriving DecidableEq, Repr

/-- The `checkArguments` signature each built-in declares; `State` checks
its arity by hand instead (`none`). -/
def sigOf : Builtin → Option (List ArgType)
  | .state => none
  | .alert => some [.any, .string, .string]
  | .command => some [.any, .string]
  | .log => some [.any, .string]
  | .query => some [.any, .string]
  | .script => some [.any, .string]
  | .snapshot => some [.any, .string, .string, .string]
  | .startTimer => some [.any, .string, .float64]
  | .randomTimer => some [.any, .string, .float64, .float64]

/-! ## Timers (`startTimer`, `StartTimer`, `RandomTimer`) -/

/-- `Service.startTimer` (main.go): `timer.Stop()` on an existing entry of
`self.timers`, then `time.AfterFunc` and `self.timers[name] = timer`.  The
pending-timer map is the association list; replacement cancels the prior
pending firing. -/
def startTimer (timers : List (String × ℚ)) (name : String) (d : ℚ) :
    List (String × ℚ) :=
  mapInsert timers name d

/-- The event the `time.AfterFunc` callback of `startTimer` publishes on
expiry: topic `timer`, device `timer.<name>`, command `on`. -/
def timerEvent (name : String) : Event :=
  { topic := "timer"
    fields := [("device", .str ("timer." ++ name)), ("command", .str "on")] }

/-- The body of `Service.RandomTimer` after argument checking: reject
`max <= min`, otherwise draw `d = rand*(max-min)+min` once and arm the
timer.  `r` is the value `self.rand.Float64()` returned (third-party
boundary; it lies in `[0,1)`). -/
def randomTimerCall (r : ℚ) (timers : List (String × ℚ)) (name : String)
    (mn mx : ℚ) : Outcome × List (String × ℚ) :=
  if mx ≤ mn then (.err .randomTimerRange, timers)
  else (.ok none, startTimer timers name (r * (mx - mn) + mn))

/-! ## `ChangeContext`: lookup and `$name` interpolation -/

/-- Modelled from the spec: the device-inventory record of the `config`
package (which is outside `src/`); only the fields `main.go` reads are
carried.  `capSet` is the set of keys the Go map `Cap` sends to `true`;
`caps` is the ordered capability list `Caps`.  The Go zero value is the
record of empty fields. -/
structure DeviceConf where
  id : String := ""
  name : String := ""
  caps : List String := []
  capSet : List String := []
  group : String := ""
deriving DecidableEq, Repr

/-- A `ChangeContext` (main.go): the triggering event's device name and
fields, the device inventory, and the three strings produced at the
`util`/`time` boundary (`FriendlyDuration(change.Duration)`,
`now.Format(time.Kitchen)`, `now.Format(time.StampMilli)`). -/
structure ChangeCtx where
  device : String
  fields : List (String × GoValue)
  devices : List (String × DeviceConf)
  durationStr : String := ""
  timestampStr : String := ""
  datetimeStr : String := ""

/-- `services.Config.Devices[device]` with Go's zero value on a missing
key. -/
def deviceOf (c : ChangeCtx) : DeviceConf :=
  (lookupA c.devices c.device).getD {}

/-- `ChangeContext.Get` (main.go).  `none` is a run-time panic: the `"cap"`
arm indexes `d.Caps[0]`, out of range when the device has no capabilities.
`some none` is `(nil, false)` (name not found); `some (some v)` is
`(v, true)`.  The `"type"` arm is `strings.Split(d.Id, ".")[0]`, safe
because `Split` never returns an empty slice. -/
def ctxGet (c : ChangeCtx) (name : String) : Option (Option GoValue) :=
  match name with
  | "id" => some (some (.str (deviceOf c).id))
  | "name" => some (some (.str (deviceOf c).name))
  | "type" => some (some (.str (((deviceOf c).id.splitOn ".").headD "")))
  | "cap" =>
    match (deviceOf c).caps with
    | [] => none
    | c0 :: _ => some (some (.str c0))
  | "group" => some (some (.str (deviceOf c).group))
  | "duration" => some (some (.str c.durationStr))
  | "timestamp" => some (some (.str c.timestampStr))
  | "datetime" => some (some (.str c.datetimeStr))
  | _ =>
    match lookupA c.fields name with
    | some v => some (some v)
    | none => some none

/-- `fmt.Sprint` at the value types that can reach `Format`. -/
def sprint : GoValue → String
  | .str s => s
  | .int n => toString n
  | .int64 n => toString n
  | .float q => toString q
  | .bool b => if b then "true" else "false"
  | .context => "context"
  | .other => "value"

/-- A `\w` character of Go's `regexp`: ASCII letter, digit or underscore. -/
def isWordChar (c : Char) : Bool :=
  c.isAlphanum || c = '_'

/-- `ChangeContext.Format` (main.go): scan for the leftmost occurrences of
`$(\w+)`; each match `$name` is replaced by `fmt.Sprint(value)` when
`Get(name)` succeeds and kept verbatim when it fails; a panic inside `Get`
(`none`) propagates. -/
def formatChars (c : ChangeCtx) : List Char → Option (List Char)
  | [] => some []
  | '$' :: rest =>
    let w := rest.takeWhile isWordChar
    if w = [] then
      match formatChars c rest with
      | none => none
      | some r => some ('$' :: r)
    else
      match ctxGet c (String.mk w) with
      | none => none
      | some none =>
        match formatChars c (rest.drop w.length) with
        | none => none
        | some r => some ('$' :: (w ++ r))
      | some (some v) =>
        match formatChars c (rest.drop w.length) with
        | none => none
        | some r => some ((sprint v).toList ++ r)
  | ch :: rest =>
    match formatChars c rest with
    | none => none
    | some r => some (ch :: r)
termination_by l => l.length
decreasing_by
  all_goals simp only [List.length_cons, List.length_drop]
  all_goals omega

/-- `Format` on strings; `none` is the propagated panic. -/
def formatCtx (c : ChangeCtx) (msg : String) : Option String :=
  (formatChars c msg.toList).map String.mk

/-- Whether Go's scan for `\$(\w+)` finds a match in `l`: some `$` is
immediately followed by a word character. -/
def hasMatch : List Char → Bool
  | [] => false
  | '$' :: rest => !(rest.takeWhile isWordChar).isEmpty || hasMatch rest
  | _ :: rest => hasMatch rest

/-- `rest` cannot extend a `\w+` run: it is empty or starts with a
non-word character (so a match ending right before `rest` is maximal). -/
def boundaryOk (rest : List Char) : Prop :=
  ∀ r t, rest = r :: t → isWordChar r = false

/-! ## The built-in function bodies -/

/-- Result of one built-in call: outcome, the timer map after the call and
the side effects performed before returning. -/
structure BuiltinResult where
  outcome : Outcome
  timers : List (String × ℚ)
  effects : List Effect
deriving Repr

/-- `State` (main.go): hand-rolled arity check, then the single-value
assertion `args[0].(string)` (a panic on any non-string argument), then
the automaton lookup.  `auts` maps automaton name to current state name
(`automata.Automaton[name].State.Name`). -/
def stateCall (auts : List (String × String)) (timers : List (String × ℚ))
    (args : List GoValue) : BuiltinResult :=
  if args.length ≠ 1 then ⟨.err .stateArity, timers, []⟩
  else
    match args with
    | [.str name] =>
      match lookupA auts name with
      | some st => ⟨.ok (some (.str st)), timers, []⟩
      | none => ⟨.err (.stateNotFound name), timers, []⟩
    | _ => ⟨.panicked, timers, []⟩

/-- What a built-in does after `checkArguments` succeeded: the single-value
assertions (`args[0].(ChangeContext)`, `args[i].(string)`, …) and then the
function body.  A failed assertion is `.panicked`; a panic inside
`Format` propagates. -/
def builtinBody (b : Builtin) (r : ℚ) (c : ChangeCtx)
    (timers : List (String × ℚ)) (checked : List GoValue) : BuiltinResult :=
  match b, checked with
  | .alert, [.context, .str msg, .str target] =>
    match formatCtx c msg with
    | none => ⟨.panicked, timers, []⟩
    | some m => ⟨.ok none, timers, [.alertSent m target]⟩
  | .command, [.context, .str text] =>
    match formatCtx c text with
    | none => ⟨.panicked, timers, []⟩
    | some t => ⟨.ok none, timers, [.commandSent t]⟩
  | .log, [.context, .str msg] =>
    match formatCtx c msg with
    | none => ⟨.panicked, timers, []⟩
    | some m => ⟨.ok none, timers, [.logAppended m]⟩
  | .query, [_, .str q] => ⟨.ok none, timers, [.queryIssued q]⟩
  | .script, [.context, .str cmd] =>
    match formatCtx c cmd with
    | none => ⟨.panicked, timers, []⟩
    | some sc => ⟨.ok none, timers, [.scriptStarted sc]⟩
  | .snapshot, [.context, .str device, .str target, .str msg] =>
    match formatCtx c msg with
    | none => ⟨.panicked, timers, []⟩
    | some m =>
      ⟨.ok none, timers,
        [.publish
          { topic := "command"
            fields := [("device", .str device), ("command", .str "snapshot"),
              ("message", .str m), ("notify", .str target)] }]⟩
  | .startTimer, [_, .str name, .float d] =>
    ⟨.ok none, startTimer timers name d, []⟩
  | .randomTimer, [_, .str name, .float mn, .float mx] =>
    match randomTimerCall r timers name mn mx with
    | (o, t) => ⟨o, t, []⟩
  | _, _ => ⟨.panicked, timers, []⟩

/-- One built-in call as govaluate performs it: `State` with its own arity
check, every other function through `checkArguments` followed by its
body.  `r` is the random draw consumed by `RandomTimer`; `c` the
`ChangeContext` value that occupies `GoValue.context` positions. -/
def runBuiltin (b : Builtin) (r : ℚ) (auts : List (String × String))
    (c : ChangeCtx) (timers : List (String × ℚ)) (args : List GoValue) :
    BuiltinResult :=
  match sigOf b with
  | none => stateCall auts timers args
  | some sig =>
    match checkArguments args sig with
    | .error e => ⟨.err e, timers, []⟩
    | .ok checked => builtinBody b r c timers checked

/-! ## Timer lifecycle (pending map + firings)

`time.AfterFunc` timers live in `self.timers`.  `startTimer` stops any
pending timer of the same name before storing the replacement, so a
name's previous firing can no longer happen; a firing publishes
`timerEvent` once and a stopped or already-fired timer never fires
again.  The trace semantics below makes that lifecycle explicit. -/

/-- State of the timer subsystem: timers still pending, events published
so far. -/
structure TimerSys where
  pending : List (String × ℚ)
  published : List Event
deriving Repr

/-- A step of the timer subsystem: `start` is `Service.startTimer`;
`fire` is the expiry callback of the named timer attempting to run (a
no-op when that timer was stopped/replaced or already fired). -/
inductive TimerOp where
  | start (name : String) (d : ℚ)
  | fire (name : String)

/-- Step semantics: `start` replaces (cancelling the pending firing);
`fire` publishes the timer event once and consumes the pending entry. -/
def stepTimer (s : TimerSys) : TimerOp → TimerSys
  | .start n d => { s with pending := startTimer s.pending n d }
  | .fire n =>
    match lookupA s.pending n with
    | some _ =>
      { pending := mapErase s.pending n, published := s.published ++ [timerEvent n] }
    | none => s

/-- Run a sequence of timer operations. -/
def runTimerOps (s : TimerSys) (ops : List TimerOp) : TimerSys :=
  ops.foldl stepTimer s

/-! ## Startup reconciliation: `stateRestored` / `publishState` -/

/-- `publishState` (main.go): a retained `state` event carrying device,
state and trigger. -/
def stateEvent (device st trigger : String) : Event :=
  { topic := "state"
    fields := [("device", .str device), ("state", .str st), ("trigger", .str trigger)]
    retained := true }

/-- `Service.stateRestored` (main.go): walk `automata.Automaton`; every
automaton whose name is not yet in `restoredAutomaton` has its current
state published retained with trigger `"initial"` and is then marked
restored.  `auts` maps automaton name to current state name; returns the
updated restored set and the events published. -/
def stateRestoredRun : List (String × String) → List String →
    List String × List Event
  | [], restored => (restored, [])
  | (k, st) :: rest, restored =>
    if k ∈ restored then stateRestoredRun rest restored
    else
      ((stateRestoredRun rest (k :: restored)).1,
        stateEvent k st "initial" :: (stateRestoredRun rest (k :: restored)).2)

/-! ## Administrative queries: `matchDevices`, `queryState` -/

/-- `strings.Contains(s, sub)` on character lists. -/
def goContains (s sub : List Char) : Bool :=
  sub.isPrefixOf s ||
    match s with
    | [] => false
    | _ :: t => goContains t sub

/-- `isSwitchable` (main.go): `dev.Cap["switch"]`. -/
def isSwitchable (dev : DeviceConf) : Bool :=
  "switch" ∈ dev.capSet

/-- `matchDevices` (main.go): an exact configured name answers alone
(switchable or not); otherwise every configured device whose name
contains the query as a substring and that is switchable. -/
def matchDevices (devices : List (String × DeviceConf)) (n : String) :
    List String :=
  if (lookupA devices n).isSome then [n]
  else
    ((devices.filter
        (fun p => goContains p.1.toList n.toList && isSwitchable p.2)).map
      Prod.fst)

/-- `DummyEvent.String()` (main.go). -/
def dummyEventString : String := "user"

/-- `DummyEvent.Match(s)` (main.go): always false. -/
def dummyEventMatch (_ : String) : Bool := false

/-- `strings.Split(s, sep)` for a one-character separator: every
occurrence splits; the empty string yields `[""]`. -/
def splitOnChar (sep : Char) : List Char → List (List Char)
  | [] => [[]]
  | c :: rest =>
    let r := splitOnChar sep rest
    if c = sep then [] :: r
    else
      match r with
      | [] => [[c]]
      | h :: t => (c :: h) :: t

/-- `Service.queryState` (main.go): split the arguments on spaces, demand
exactly two, resolve the automaton then the state, and only then call
`aut.ChangeState(state, DummyEvent{})`.  `auts` maps automaton name to
its declared state names; the result is the reply text and the
`ChangeState` call made, if any (automaton, new state). -/
def queryState (auts : List (String × List String)) (argsStr : String) :
    String × Option (String × String) :=
  let args := (splitOnChar ' ' argsStr.toList).map (fun l => String.mk l)
  match args with
  | [a0, a1] =>
    match lookupA auts a0 with
    | none => ("automata: '" ++ a0 ++ "' not found", none)
    | some states =>
      if a1 ∈ states then
        ("Change " ++ a0 ++ " state to " ++ a1, some (a0, a1))
      else ("automata state: '" ++ a1 ++ "' not found", none)
  | _ => ("usage: state automata state", none)

/-- A concrete `ChangeContext` over a one-device inventory, used to
exercise `Format`: the triggering event is `door.front` with field
`command = "open"`. -/
def frontDoorCtx : ChangeCtx :=
  { device := "door.front"
    fields := [("command", .str "open")]
    devices :=
      [("door.front",
        { id := "door.front", name := "Front Door", caps := ["switch"],
          capSet := ["switch"], group := "doors" })]
    durationStr := "2m" }

/-! ## Rule-set reload: `loadAutomata`

`loadAutomata` renders the template, parses it with `gofsm.Load`, then —
crucially — assigns `parsingCache = map[...]{}` *before* precompiling
every expression of the candidate rule set through `ParseCached`.
Compile errors are collected into a `MultiError` and returned, in which
case the global `automata` reference is untouched but the global
`parsingCache` has already been replaced.  Template/parse/load failures
return before the cache reset.  On success both globals hold the new
generation.

The govaluate compiler is the third-party boundary: `compileOk` tells
which expression texts `govaluate.NewEvaluableExpressionWithFunctions`
accepts; the cache is modelled by its key set (the compiled values are
opaque). -/

/-- One gofsm transition as `loadAutomata` walks it: guard text and action
texts. -/
structure TransitionDef where
  whenExpr : String
  actions : List String
deriving DecidableEq, Repr

/-- One gofsm state: entering and leaving action texts. -/
structure StateDef where
  entering : List String
  leaving : List String
deriving DecidableEq, Repr

/-- One parsed automaton definition as far as expression precompilation is
concerned: the transition lists (`aut.Transitions` values) and the states
(`aut.States` values). -/
structure AutomatonDef where
  transitions : List (List TransitionDef)
  states : List StateDef
deriving DecidableEq, Repr

/-- Result of the stages preceding precompilation: template parse error,
template execute error, `gofsm.Load` error, or the parsed candidate
definitions (third-party boundary for the error cases). -/
inductive ConfigInput where
  | templateParseError
  | templateExecError
  | loadError
  | loaded (auts : List AutomatonDef)

/-- The failure `loadAutomata` returns. -/
inductive LoadError where
  | templateParse
  | templateExec
  | load
  | compile (failed : List String)
deriving DecidableEq, Repr

/-- The globals `loadAutomata` touches: the active rule set `automata` and
the cache key set of `parsingCache`. -/
structure RuleSetState where
  automata : Option (List AutomatonDef)
  cache : List String
deriving DecidableEq, Repr

/-- `ParseCached` during precompilation, on the cache key set: a hit
compiles nothing; a miss compiles and caches on success. -/
def parseCachedKeys (compileOk : String → Bool) (cache : List String)
    (s : String) : List String × Bool :=
  if s ∈ cache then (cache, true)
  else if compileOk s then (s :: cache, true)
  else (cache, false)

/-- Fold `ParseCached` over the expression occurrences in walk order,
collecting each failing occurrence (the `MultiError` contents). -/
def compileAll (compileOk : String → Bool) :
    List String → List String → List String × List String
  | cache, [] => (cache, [])
  | cache, e :: rest =>
    let step := parseCachedKeys compileOk cache e
    let out := compileAll compileOk step.1 rest
    (out.1, if step.2 then out.2 else e :: out.2)

/-- The expression texts of one automaton in the order `loadAutomata`
walks them: per transition its guard then its actions, then per state its
entering then leaving actions. -/
def exprsOfAutomaton (a : AutomatonDef) : List String :=
  (a.transitions.flatMap (fun ts =>
      ts.flatMap (fun t => t.whenExpr :: t.actions))) ++
    (a.states.flatMap (fun s => s.entering ++ s.leaving))

/-- All expression texts of the candidate rule set, in walk order. -/
def exprsOfConfig (auts : List AutomatonDef) : List String :=
  auts.flatMap exprsOfAutomaton

/-- `Service.loadAutomata` (main.go), as a transformer of the two globals.
Returns the state of the globals after the call together with the error
returned, if any. -/
def loadAutomata (compileOk : String → Bool) (st : RuleSetState)
    (input : ConfigInput) : RuleSetState × Option LoadError :=
  match input with
  | .templateParseError => (st, some .templateParse)
  | .templateExecError => (st, some .templateExec)
  | .loadError => (st, some .load)
  | .loaded auts =>
    let out := compileAll compileOk [] (exprsOfConfig auts)
    if out.2 = [] then ({ automata := some auts, cache := out.1 }, none)
    else ({ st with cache := out.1 }, some (.compile out.2))

/-! ## Startup: `Service.Run` before the event loop, and `RestoreFile`

`Run` initialises the service (log file, timer map, reload channel,
restored set, random source), loads the automata, subscribes to the bus,
arms the five-second reconciliation timer and the calendar channels, and
enters the select loop.  The statements before the loop are embedded as
an explicit step list. -/

/-- The statements `Service.Run` executes before entering its select
loop, in program order, plus the constructor `readSnapshotFile`
representing what `RestoreFile` would do (open and decode
`automata.state` and `Restore` it). -/
inductive StartupStep where
  | openEventsLogFile
  | initTimersMap
  | initConfigUpdatedChan
  | initRestoredAutomatonMap
  | initRandSource
  | loadAutomataCall
  | subscribeBusChannel
  | armStateRestoredTimer
  | openEarthChannel
  | startClockScheduler
  | readSnapshotFile
deriving DecidableEq, Repr

/-- The pre-loop body of `Service.Run` (main.go, lines 553–570). -/
def runStartupSteps : List StartupStep :=
  [.openEventsLogFile, .initTimersMap, .initConfigUpdatedChan,
    .initRestoredAutomatonMap, .initRandSource, .loadAutomataCall,
    .subscribeBusChannel, .armStateRestoredTimer, .openEarthChannel,
    .startClockScheduler]

/-- Result of opening and decoding the durable snapshot file
(`os.Open` + `json.Decode`, third-party boundary). -/
inductive SnapshotRead where
  | openError
  | decodeError
  | decoded (snap : List (String × String))
deriving Repr

/-- `Service.RestoreFile` (main.go): open `automata.state`, JSON-decode an
`AutomataState`, and call `automata.Restore(p)`; either failure is logged
and nothing is restored.  The returned value is the snapshot passed to
`Restore`, `none` when no `Restore` call happens; `RestoreFile` publishes
no event in any case (gofsm's `Restore` only rewrites state/`since`). -/
def restoreFile (r : SnapshotRead) : Option (List (String × String)) :=
  match r with
  | .openError => none
  | .decodeError => none
  | .decoded snap => some snap

/-! ## Helper lemmas on the association-list map model -/

theorem lookupA_none_iff {α : Type} (m : List (String × α)) (k : String) :
    lookupA m k = none ↔ k ∉ m.map Prod.fst := by
  induction m with
  | nil => simp [lookupA]
  | cons p t ih =>
    obtain ⟨k', v⟩ := p
    simp only [lookupA, List.map_cons, List.mem_cons, not_or]
    by_cases h : k' = k
    · subst h
      simp
    · have h' : ¬ k = k' := fun e => h e.symm
      rw [if_neg h, ih]
      tauto

theorem lookupA_append_of_none {α : Type} (m l : List (String × α)) (k : String)
    (h : lookupA m k = none) : lookupA (m ++ l) k = lookupA l k := by
  induction m with
  | nil => simp
  | cons p t ih =>
    obtain ⟨k', v⟩ := p
    by_cases hk : k' = k
    · simp [lookupA, hk] at h
    · simp only [lookupA, hk, List.cons_append, if_false] at h ⊢
      exact ih h

theorem mapInsert_of_lookupA_none {α : Type} (m : List (String × α)) (k : String)
    (v : α) (h : lookupA m k = none) : mapInsert m k v = m ++ [(k, v)] := by
  induction m with
  | nil => simp [mapInsert]
  | cons p t ih =>
    obtain ⟨k', v'⟩ := p
    by_cases hk : k' = k
    · simp [lookupA, hk] at h
    · simp only [lookupA, hk, if_false] at h
      simp [mapInsert, hk, ih h]

theorem lookupA_mapInsert_self {α : Type} (m : List (String × α)) (k : String)
    (v : α) : lookupA (mapInsert m k v) k = some v := by
  induction m with
  | nil => simp [mapInsert, lookupA]
  | cons p t ih =>
    obtain ⟨k', v'⟩ := p
    by_cases hk : k' = k
    · simp [mapInsert, hk, lookupA]
    · simp [mapInsert, hk, lookupA, ih]

theorem mapInsert_append_self {α : Type} (m : List (String × α)) (k : String)
    (x y : α) (h : lookupA m k = none) :
    mapInsert (m ++ [(k, x)]) k y = m ++ [(k, y)] := by
  induction m with
  | nil => simp [mapInsert]
  | cons p t ih =>
    obtain ⟨k', v'⟩ := p
    by_cases hk : k' = k
    · simp [lookupA, hk] at h
    · simp only [lookupA, hk, if_false] at h
      simp [mapInsert, hk, ih h]

theorem mapErase_append_of_none {α : Type} (m : List (String × α)) (k : String)
    (v : α) (h : lookupA m k = none) : mapErase (m ++ [(k, v)]) k = m := by
  induction m with
  | nil => simp [mapErase]
  | cons p t ih =>
    obtain ⟨k', v'⟩ := p
    by_cases hk : k' = k
    · simp [lookupA, hk] at h
    · simp only [lookupA, hk, if_false] at h
      simp [mapErase, hk, ih h]

theorem mem_keys_mapInsert {α : Type} (m : List (String × α)) (k a : String)
    (v : α) : a ∈ (mapInsert m k v).map Prod.fst ↔ a = k ∨ a ∈ m.map Prod.fst := by
  induction m with
  | nil => simp [mapInsert]
  | cons p t ih =>
    obtain ⟨k', v'⟩ := p
    by_cases hk : k' = k
    · subst hk
      have he : mapInsert ((k', v') :: t) k' v = (k', v) :: t := by
        simp [mapInsert]
      rw [he]
      simp only [List.map_cons, List.mem_cons]
      tauto
    · have he : mapInsert ((k', v') :: t) k v = (k', v') :: mapInsert t k v := by
        simp [mapInsert, hk]
      rw [he]
      simp only [List.map_cons, List.mem_cons, ih]
      tauto

theorem nodupKeys_mapInsert {α : Type} (m : List (String × α)) (k : String)
    (v : α) (h : nodupKeys m) : nodupKeys (mapInsert m k v) := by
  induction m with
  | nil => simp [mapInsert, nodupKeys]
  | cons p t ih =>
    obtain ⟨k', v'⟩ := p
    simp only [nodupKeys, List.map_cons, List.nodup_cons] at h
    by_cases hk : k' = k
    · subst hk
      have he : mapInsert ((k', v') :: t) k' v = (k', v) :: t := by
        simp [mapInsert]
      rw [he]
      simp only [nodupKeys, List.map_cons, List.nodup_cons]
      exact h
    · have ht := ih h.2
      have he : mapInsert ((k', v') :: t) k v = (k', v') :: mapInsert t k v := by
        simp [mapInsert, hk]
      rw [he]
      simp only [nodupKeys, List.map_cons, List.nodup_cons]
      refine ⟨?_, ht⟩
      rw [mem_keys_mapInsert]
      rintro (rfl | hmem)
      · exact hk rfl
      · exact h.1 hmem

theorem mem_keys_mapErase {α : Type} (m : List (String × α)) (k a : String) :
    a ∈ (mapErase m k).map Prod.fst → a ∈ m.map Prod.fst := by
  induction m with
  | nil => simp [mapErase]
  | cons p t ih =>
    obtain ⟨k', v'⟩ := p
    by_cases hk : k' = k
    · simp only [mapErase, if_pos hk, List.map_cons, List.mem_cons]
      tauto
    · simp only [mapErase, if_neg hk, List.map_cons, List.mem_cons]
      rintro (h | h)
      · exact Or.inl h
      · exact Or.inr (ih h)

theorem nodupKeys_mapErase {α : Type} (m : List (String × α)) (k : String)
    (h : nodupKeys m) : nodupKeys (mapErase m k) := by
  induction m with
  | nil => simpa [mapErase] using h
  | cons p t ih =>
    obtain ⟨k', v'⟩ := p
    simp only [nodupKeys, List.map_cons, List.nodup_cons] at h
    by_cases hk : k' = k
    · simp only [mapErase, if_pos hk, nodupKeys]
      exact h.2
    · simp only [mapErase, if_neg hk, nodupKeys, List.map_cons, List.nodup_cons]
      exact ⟨fun hm => h.1 (mem_keys_mapErase t k k' hm), ih h.2⟩

theorem countKey_eq_zero_of_not_mem {α : Type} (m : List (String × α)) (k : String)
    (h : k ∉ m.map Prod.fst) : countKey m k = 0 := by
  induction m with
  | nil => rfl
  | cons p t ih =>
    obtain ⟨k', v'⟩ := p
    simp only [List.map_cons, List.mem_cons, not_or] at h
    have hne : ¬ (k' = k) := fun e => h.1 e.symm
    have h2 := ih h.2
    simp only [countKey] at h2 ⊢
    simpa [hne] using h2

theorem countKey_mapInsert_self {α : Type} (m : List (String × α)) (k : String)
    (v : α) (h : nodupKeys m) : countKey (mapInsert m k v) k = 1 := by
  induction m with
  | nil => simp [mapInsert, countKey]
  | cons p t ih =>
    obtain ⟨k', v'⟩ := p
    simp only [nodupKeys, List.map_cons, List.nodup_cons] at h
    by_cases hk : k' = k
    · subst hk
      have h0 := countKey_eq_zero_of_not_mem t k' h.1
      simp only [countKey] at h0
      simp [mapInsert, countKey, h0]
    · have ht := ih h.2
      simp only [countKey] at ht
      simp [mapInsert, hk, countKey, ht]

/-! ## Claim theorems -/

/-- **C2, counterexample**: the claim says `Match` "is total and returns
false whenever the expression fails … it never panics or otherwise halts
processing" for *every* guard expression.  But the guard `State(5.0)`
parses, and during evaluation govaluate invokes the registered `State`
function on the float literal: its `args[0].(string)` assertion panics
(first conjunct, the concrete builtin trace; `Log("a", "b")` in a guard
panics the same way on `args[0].(ChangeContext)`), and `Match` has no
recover, so the panic unwinds through it instead of yielding `false`
(second conjunct). -/
theorem match_builtin_panic_halts :
    (runBuiltin .state 0 [] { device := "x", fields := [], devices := [] } []
      [.float 5]).outcome = .panicked ∧
    eventContextMatch .builtinPanic = none := by
  exact ⟨rfl, rfl⟩

/-- **C2, amended**: `Match` returns `false` — without halting — on a
parse error, a govaluate evaluation error, or a non-boolean result (the
failed two-value assertion leaves the zero value `false`, so the final
`result.(bool)` cannot panic), and returns a boolean result unchanged;
the one escape is a panic raised by a builtin invoked during evaluation
(e.g. `State(5.0)`), which `Match` does not recover and which therefore
halts processing. -/
theorem match_guard_error_is_false :
    eventContextMatch .parseError = some false ∧
    eventContextMatch .evalError = some false ∧
    (∀ v : GoValue, (∀ b, v ≠ .bool b) →
      eventContextMatch (.value v) = some false) ∧
    (∀ b, eventContextMatch (.value (.bool b)) = some b) ∧
    (∀ o, eventContextMatch o = none ↔ o = .builtinPanic) := by
  refine ⟨rfl, rfl, ?_, ?_, ?_⟩
  · intro v h
    cases v with
    | bool b => exact absurd rfl (h b)
    | str s => rfl
    | int n => rfl
    | int64 n => rfl
    | float q => rfl
    | context => rfl
    | other => rfl
  · intro b
    rfl
  · intro o
    cases o with
    | parseError => simp [eventContextMatch]
    | evalError => simp [eventContextMatch]
    | builtinPanic => simp [eventContextMatch]
    | value v =>
      cases v <;> simp [eventContextMatch]

/-- Witness for **C2 amended** at a concrete non-boolean evaluation
result. -/
theorem match_guard_error_is_false_witness :
    eventContextMatch (.value (.str "open")) = some false := by
  exact match_guard_error_is_false.2.2.1 (.str "open") (fun b h => by cases h)

/-- **C5**: `RandomTimer` with `max ≤ min` returns an error and leaves the
timer map untouched; with `max > min` it succeeds, arms exactly one timer
under the name, and the delay `r·(max−min)+min` — computed once from the
single random draw `r ∈ [0,1)` — lies in `[min, max)`. -/
theorem randomTimer_range_spec (r : ℚ) (timers : List (String × ℚ))
    (name : String) (mn mx : ℚ) :
    (mx ≤ mn →
      randomTimerCall r timers name mn mx = (.err .randomTimerRange, timers)) ∧
    (mn < mx →
      randomTimerCall r timers name mn mx =
        (.ok none, startTimer timers name (r * (mx - mn) + mn)) ∧
      (nodupKeys timers →
        countKey (startTimer timers name (r * (mx - mn) + mn)) name = 1) ∧
      (0 ≤ r → r < 1 →
        mn ≤ r * (mx - mn) + mn ∧ r * (mx - mn) + mn < mx)) := by
  constructor
  · intro h
    simp [randomTimerCall, h]
  · intro h
    have hlt : ¬ (mx ≤ mn) := not_le.mpr h
    refine ⟨by simp [randomTimerCall, hlt], ?_, ?_⟩
    · intro hnd
      exact countKey_mapInsert_self timers name _ hnd
    · intro hr0 hr1
      constructor
      · nlinarith [mul_nonneg hr0 (by linarith : (0:ℚ) ≤ mx - mn)]
      · nlinarith [mul_pos (by linarith : (0:ℚ) < 1 - r) (by linarith : (0:ℚ) < mx - mn)]

/-- Witness for **C5**: the spec's own examples — `RandomTimer(name, 5, 5)`
errors arming nothing, and `RandomTimer(name, 3, 8)` at draw `r = 1/2`
arms one timer with delay `11/2 ∈ [3, 8)`. -/
theorem randomTimer_range_spec_witness :
    randomTimerCall (1/2 : ℚ) [] "x" 5 5 = (.err .randomTimerRange, []) ∧
    randomTimerCall (1/2 : ℚ) [] "x" 3 8 =
      (.ok none, startTimer [] "x" ((1/2 : ℚ) * (8 - 3) + 3)) ∧
    countKey (startTimer [] "x" ((1/2 : ℚ) * (8 - 3) + 3)) "x" = 1 ∧
    (3 : ℚ) ≤ (1/2 : ℚ) * (8 - 3) + 3 ∧ (1/2 : ℚ) * (8 - 3) + 3 < 8 := by
  have h1 := (randomTimer_range_spec (1/2) [] "x" 5 5).1 (le_refl 5)
  have h2 := (randomTimer_range_spec (1/2) [] "x" 3 8).2 (by norm_num)
  have hnd : nodupKeys ([] : List (String × ℚ)) := by simp [nodupKeys]
  exact ⟨h1, h2.1, h2.2.1 hnd, h2.2.2 (by norm_num) (by norm_num)⟩

/-- **C9**: `matchDevices` answers exactly `[n]` when `n` is the exact
name of a configured device, switchable or not; otherwise it answers
exactly the configured devices whose names contain `n` as a substring and
that carry the `switch` capability — so a non-switchable device is only
addressable by its exact name. -/
theorem matchDevices_exact_or_switchable (devices : List (String × DeviceConf))
    (n : String) :
    (∀ d, lookupA devices n = some d → matchDevices devices n = [n]) ∧
    (lookupA devices n = none → ∀ m,
      m ∈ matchDevices devices n ↔
        ∃ dev, (m, dev) ∈ devices ∧
          goContains m.toList n.toList = true ∧ isSwitchable dev = true) := by
  constructor
  · intro d h
    simp [matchDevices, h]
  · intro h m
    simp only [matchDevices, h, Option.isSome_none, Bool.false_eq_true, if_false,
      List.mem_map, List.mem_filter]
    constructor
    · rintro ⟨⟨m', dev⟩, ⟨hmem, hp⟩, rfl⟩
      simp only [Bool.and_eq_true] at hp
      exact ⟨dev, hmem, hp.1, hp.2⟩
    · rintro ⟨dev, hmem, hc, hs⟩
      refine ⟨(m, dev), ⟨hmem, ?_⟩, rfl⟩
      rw [Bool.and_eq_true]
      exact ⟨hc, hs⟩

/-- Witness for **C9**: `lamp.bedroom` (switchable) is found by the
substring `bed`, while the non-switchable `sensor.bedroom` is not, yet is
returned alone on its exact name. -/
theorem matchDevices_exact_or_switchable_witness :
    matchDevices
      [("lamp.bedroom", { capSet := ["switch"] }),
        ("sensor.bedroom", { capSet := [] })] "sensor.bedroom" =
      ["sensor.bedroom"] ∧
    "lamp.bedroom" ∈ matchDevices
      [("lamp.bedroom", { capSet := ["switch"] }),
        ("sensor.bedroom", { capSet := [] })] "bed" ∧
    "sensor.bedroom" ∉ matchDevices
      [("lamp.bedroom", { capSet := ["switch"] }),
        ("sensor.bedroom", { capSet := [] })] "bed" := by
  refine ⟨?_, ?_, ?_⟩
  · exact (matchDevices_exact_or_switchable _ _).1 { capSet := [] } (by decide)
  · refine ((matchDevices_exact_or_switchable _ _).2 (by decide) _).mpr ?_
    exact ⟨{ capSet := ["switch"] }, by decide, by decide, by decide⟩
  · intro hmem
    have := ((matchDevices_exact_or_switchable _ _).2 (by decide) _).mp hmem
    obtain ⟨dev, hd, hc, hs⟩ := this
    simp only [List.mem_cons, List.mem_singleton, Prod.mk.injEq] at hd
    rcases hd with ⟨h1, -⟩ | ⟨⟨-, rfl⟩ | h3⟩
    · exact absurd h1 (by decide)
    · simp [isSwitchable] at hs
    · simp at h3

/-- **C10**: `queryState` calls `ChangeState` only when the query has
exactly two space-separated arguments naming an existing automaton and an
existing state of it; every failing case answers a usage or not-found
message with no `ChangeState`; success calls `ChangeState` with the
`DummyEvent` trigger whose string form is `"user"` and whose `Match` is
constantly false. -/
theorem queryState_guarded (auts : List (String × List String)) (q : String) :
    (((splitOnChar ' ' q.toList).map (fun l => String.mk l)).length ≠ 2 →
      queryState auts q = ("usage: state automata state", none)) ∧
    (∀ a0 a1,
      (splitOnChar ' ' q.toList).map (fun l => String.mk l) = [a0, a1] →
      (lookupA auts a0 = none →
        queryState auts q = ("automata: '" ++ a0 ++ "' not found", none)) ∧
      (∀ sts, lookupA auts a0 = some sts → a1 ∉ sts →
        queryState auts q =
          ("automata state: '" ++ a1 ++ "' not found", none)) ∧
      (∀ sts, lookupA auts a0 = some sts → a1 ∈ sts →
        queryState auts q =
          ("Change " ++ a0 ++ " state to " ++ a1, some (a0, a1)))) ∧
    dummyEventString = "user" ∧
    (∀ s, dummyEventMatch s = false) := by
  refine ⟨?_, ?_, rfl, fun _ => rfl⟩
  · intro hlen
    simp only [queryState]
    split
    · next a0 a1 heq => exact absurd (by rw [heq]; rfl) hlen
    · rfl
  · intro a0 a1 harg
    have hargd : (splitOnChar ' ' q.data).map (fun l => String.mk l) = [a0, a1] :=
      harg
    refine ⟨?_, ?_, ?_⟩
    · intro h
      simp [queryState, hargd, h]
    · intro sts hs hmem
      simp [queryState, hargd, hs, hmem]
    · intro sts hs hmem
      simp [queryState, hargd, hs, hmem]

/-- Witness for **C10**: on automaton `door` with states `open`/`closed`,
the query `door open` performs the `ChangeState` call and the query
`door ajar` performs none. -/
theorem queryState_guarded_witness :
    queryState [("door", ["open", "closed"])] "door open" =
      ("Change door state to open", some ("door", "open")) ∧
    queryState [("door", ["open", "closed"])] "door ajar" =
      ("automata state: 'ajar' not found", none) ∧
    queryState [("door", ["open", "closed"])] "door" =
      ("usage: state automata state", none) := by
  have hsplit :
      (splitOnChar ' ' "door open".toList).map (fun l => String.mk l) =
        ["door", "open"] := by decide
  have hsplit2 :
      (splitOnChar ' ' "door ajar".toList).map (fun l => String.mk l) =
        ["door", "ajar"] := by decide
  refine ⟨?_, ?_, ?_⟩
  · exact ((queryState_guarded [("door", ["open", "closed"])] "door open").2.1
      "door" "open" hsplit).2.2 ["open", "closed"] (by decide) (by decide)
  · exact ((queryState_guarded [("door", ["open", "closed"])] "door ajar").2.1
      "door" "ajar" hsplit2).2.1 ["open", "closed"] (by decide) (by decide)
  · exact (queryState_guarded [("door", ["open", "closed"])] "door").1 (by decide)

/-- **C6**: `startTimer` under a name already in the timer map stops the
prior timer and replaces the entry, so the pending map keeps nodup keys
and holds exactly one entry for a just-started name; starting the same
name twice in quick succession (before any firing) yields exactly one
firing, a single `timer` event with device `timer.<name>` and command
`on`. -/
theorem startTimer_replace_once (n : String) (d₁ d₂ : ℚ) (s : TimerSys) :
    (∀ op, nodupKeys s.pending → nodupKeys (stepTimer s op).pending) ∧
    (∀ d, nodupKeys s.pending →
      countKey (stepTimer s (.start n d)).pending n = 1) ∧
    (lookupA s.pending n = none →
      (runTimerOps s [.start n d₁, .start n d₂, .fire n, .fire n]).published =
        s.published ++ [timerEvent n]) ∧
    timerEvent n =
      { topic := "timer"
        fields := [("device", .str ("timer." ++ n)), ("command", .str "on")]
        retained := false } := by
  refine ⟨?_, ?_, ?_, rfl⟩
  · intro op hnd
    cases op with
    | start m d => exact nodupKeys_mapInsert _ _ _ hnd
    | fire m =>
      cases hl : lookupA s.pending m with
      | none => simpa [stepTimer, hl] using hnd
      | some d =>
        simp only [stepTimer, hl]
        exact nodupKeys_mapErase _ _ hnd
  · intro d hnd
    exact countKey_mapInsert_self _ _ _ hnd
  · intro h
    have h1 : mapInsert s.pending n d₁ = s.pending ++ [(n, d₁)] :=
      mapInsert_of_lookupA_none _ _ _ h
    have h2 : mapInsert (s.pending ++ [(n, d₁)]) n d₂ = s.pending ++ [(n, d₂)] :=
      mapInsert_append_self _ _ _ _ h
    have hl2 : lookupA (s.pending ++ [(n, d₂)]) n = some d₂ := by
      rw [lookupA_append_of_none _ _ _ h]
      simp [lookupA]
    have he : mapErase (s.pending ++ [(n, d₂)]) n = s.pending :=
      mapErase_append_of_none _ _ _ h
    simp only [runTimerOps, List.foldl, stepTimer, startTimer, h1, h2, hl2, he, h]

/-- Witness for **C6**: from an empty timer map, `kettle_on` started twice
and allowed to fire produces exactly one `timer` event. -/
theorem startTimer_replace_once_witness :
    (runTimerOps ⟨[], []⟩
      [.start "kettle_on" 180, .start "kettle_on" 200,
        .fire "kettle_on", .fire "kettle_on"]).published =
      [timerEvent "kettle_on"] ∧
    countKey (stepTimer ⟨[], []⟩ (.start "kettle_on" 180)).pending
      "kettle_on" = 1 := by
  have h := startTimer_replace_once "kettle_on" 180 200 ⟨[], []⟩
  refine ⟨by simpa using h.2.2.1 rfl, h.2.1 180 ?_⟩
  simp [nodupKeys]

/-! ### Lemmas on `stateRestoredRun` -/

theorem stateRestoredRun_mono (auts : List (String × String))
    (restored : List String) (x : String) (hx : x ∈ restored) :
    x ∈ (stateRestoredRun auts restored).1 := by
  induction auts generalizing restored with
  | nil => simpa [stateRestoredRun] using hx
  | cons q rest ih =>
    obtain ⟨k, st⟩ := q
    by_cases hk : k ∈ restored
    · simpa [stateRestoredRun, hk] using ih restored hx
    · simp only [stateRestoredRun, if_neg hk]
      exact ih (k :: restored) (List.mem_cons_of_mem _ hx)

theorem stateRestoredRun_keys (auts : List (String × String))
    (restored : List String) :
    ∀ p ∈ auts, p.1 ∈ (stateRestoredRun auts restored).1 := by
  induction auts generalizing restored with
  | nil => simp
  | cons q rest ih =>
    obtain ⟨k, st⟩ := q
    intro p hp
    rcases List.mem_cons.mp hp with rfl | hp'
    · by_cases hk : k ∈ restored
      · simp only [stateRestoredRun, if_pos hk]
        exact stateRestoredRun_mono rest restored k hk
      · simp only [stateRestoredRun, if_neg hk]
        exact stateRestoredRun_mono rest (k :: restored) k (List.mem_cons_self _ _)
    · by_cases hk : k ∈ restored
      · simp only [stateRestoredRun, if_pos hk]
        exact ih restored p hp'
      · simp only [stateRestoredRun, if_neg hk]
        exact ih (k :: restored) p hp'

theorem stateRestoredRun_events_of_all_mem (auts : List (String × String))
    (restored : List String) (h : ∀ p ∈ auts, p.1 ∈ restored) :
    (stateRestoredRun auts restored).2 = [] := by
  induction auts generalizing restored with
  | nil => simp [stateRestoredRun]
  | cons q rest ih =>
    obtain ⟨k, st⟩ := q
    have hk : k ∈ restored := h (k, st) (List.mem_cons_self _ _)
    simp only [stateRestoredRun, if_pos hk]
    exact ih restored (fun p hp => h p (List.mem_cons_of_mem _ hp))

theorem stateRestoredRun_events (auts : List (String × String)) :
    ∀ restored, nodupKeys auts →
      (stateRestoredRun auts restored).2 =
        (auts.filter (fun p => decide (p.1 ∉ restored))).map
          (fun p => stateEvent p.1 p.2 "initial") := by
  induction auts with
  | nil => simp [stateRestoredRun]
  | cons q rest ih =>
    obtain ⟨k, st⟩ := q
    intro restored hnd
    simp only [nodupKeys, List.map_cons, List.nodup_cons] at hnd
    by_cases hk : k ∈ restored
    · simp only [stateRestoredRun, if_pos hk]
      rw [ih restored hnd.2]
      simp [List.filter_cons, hk]
    · simp only [stateRestoredRun, if_neg hk]
      rw [ih (k :: restored) hnd.2]
      have hcong : rest.filter (fun p => decide (p.1 ∉ k :: restored)) =
          rest.filter (fun p => decide (p.1 ∉ restored)) := by
        apply List.filter_congr
        intro p hp
        have hpk : p.1 ≠ k := by
          intro e
          exact hnd.1 (e ▸ List.mem_map.mpr ⟨p, hp, rfl⟩)
        simp [List.mem_cons, hpk]
      rw [hcong]
      simp [List.filter_cons, hk]

/-- **C8**: when the reconciliation window elapses (or a reload completes),
`stateRestored` publishes, for exactly the automatons not yet marked
restored, their current state as a retained `state` event with trigger
`"initial"`, and marks them; afterwards every automaton is marked, and a
second pass over the same rule set publishes nothing — at most one
initial-state publication per automaton along this path. -/
theorem stateRestored_initial_publish (auts : List (String × String))
    (restored : List String) (h : nodupKeys auts) :
    (stateRestoredRun auts restored).2 =
      (auts.filter (fun p => decide (p.1 ∉ restored))).map
        (fun p => stateEvent p.1 p.2 "initial") ∧
    (∀ p ∈ auts, p.1 ∈ (stateRestoredRun auts restored).1) ∧
    (stateRestoredRun auts (stateRestoredRun auts restored).1).2 = [] ∧
    (∀ dev st tr, stateEvent dev st tr =
      { topic := "state"
        fields := [("device", .str dev), ("state", .str st), ("trigger", .str tr)]
        retained := true }) := by
  refine ⟨stateRestoredRun_events auts restored h, stateRestoredRun_keys auts restored,
    ?_, fun _ _ _ => rfl⟩
  exact stateRestoredRun_events_of_all_mem auts _ (stateRestoredRun_keys auts restored)

/-- Witness for **C8**: of two automatons with `a` already restored, only
`b` is published, with trigger `"initial"`, and a second pass publishes
nothing. -/
theorem stateRestored_initial_publish_witness :
    (stateRestoredRun [("a", "s1"), ("b", "s2")] ["a"]).2 =
      [stateEvent "b" "s2" "initial"] ∧
    (stateRestoredRun [("a", "s1"), ("b", "s2")]
      (stateRestoredRun [("a", "s1"), ("b", "s2")] ["a"]).1).2 = [] := by
  have h := stateRestored_initial_publish [("a", "s1"), ("b", "s2")] ["a"]
    (by simp [nodupKeys])
  refine ⟨?_, h.2.2.1⟩
  rw [h.1]
  decide

/-! ### Lemmas on `checkArguments` -/

theorem checkArgsLoop_float_coerce :
    ∀ (args : List GoValue) (types : List ArgType) (i : Nat) (res : List GoValue),
      checkArgsLoop args types i = .ok res →
      (args.length = types.length → res.length = args.length) ∧
      (∀ j, types[j]? = some .float64 → j < args.length →
        res[j]? = (args[j]?).map floatCoerce ∧ ∃ q, res[j]? = some (.float q)) := by
  intro args
  induction args with
  | nil =>
    intro types i res h
    cases types with
    | nil =>
      simp only [checkArgsLoop, Except.ok.injEq] at h
      subst h
      exact ⟨fun _ => rfl, fun j hj hlt => absurd hlt (by simp)⟩
    | cons t ts =>
      simp only [checkArgsLoop, Except.ok.injEq] at h
      subst h
      exact ⟨fun hl => by simp at hl, fun j hj hlt => absurd hlt (by simp)⟩
  | cons a as ih =>
    intro types i res h
    cases types with
    | nil =>
      simp only [checkArgsLoop, Except.ok.injEq] at h
      subst h
      exact ⟨fun hl => by simp at hl, fun j hj hlt => by simp at hj⟩
    | cons t ts =>
      cases hc : coerceOne t a i with
      | error e =>
        simp only [checkArgsLoop, hc] at h
        exact Except.noConfusion h
      | ok a' =>
        cases hrest : checkArgsLoop as ts (i + 1) with
        | error e =>
          simp only [checkArgsLoop, hc, hrest] at h
          exact Except.noConfusion h
        | ok rest =>
          simp only [checkArgsLoop, hc, hrest, Except.ok.injEq] at h
          subst h
          obtain ⟨ihlen, ihj⟩ := ih ts (i + 1) rest hrest
          constructor
          · intro hl
            simp only [List.length_cons] at hl ⊢
            rw [ihlen (by omega)]
          · intro j hj hlt
            cases j with
            | zero =>
              simp only [List.getElem?_cons_zero, Option.some.injEq] at hj
              subst hj
              simp only [List.getElem?_cons_zero]
              cases a with
              | int n =>
                simp only [coerceOne] at hc
                injection hc with h'
                subst h'
                exact ⟨rfl, ⟨(n : ℚ), rfl⟩⟩
              | int64 n =>
                simp only [coerceOne] at hc
                injection hc with h'
                subst h'
                exact ⟨rfl, ⟨(n : ℚ), rfl⟩⟩
              | float q =>
                simp only [coerceOne] at hc
                injection hc with h'
                subst h'
                exact ⟨rfl, ⟨q, rfl⟩⟩
              | str s => simp [coerceOne] at hc
              | bool b => simp [coerceOne] at hc
              | context => simp [coerceOne] at hc
              | other => simp [coerceOne] at hc
            | succ j' =>
              simp only [List.getElem?_cons_succ] at hj ⊢
              exact ihj j' hj (by simpa using Nat.lt_of_succ_lt_succ hlt)

/-- **C4, counterexample**: the claim "a per-position type mismatch yields
a typed error value … never a panic" fails.  `State(5.0)` — reachable from
any guard expression — passes the arity check and then panics on the
single-value assertion `args[0].(string)`; likewise `Log("a", "b")`
passes `checkArguments` (the context position is declared `""` and never
checked) and panics on `args[0].(ChangeContext)`. -/
theorem builtin_type_mismatch_panics :
    runBuiltin .state 0 [] { device := "d", fields := [], devices := [] } []
      [.float 5] = ⟨.panicked, [], []⟩ ∧
    runBuiltin .log 0 [] { device := "d", fields := [], devices := [] } []
      [.str "a", .str "b"] = ⟨.panicked, [], []⟩ := by
  exact ⟨rfl, rfl⟩

/-- **C4, amended**: an arity mismatch, or a type mismatch at a position
declared `"string"` or `"float64"`, yields a typed error before the
function body runs (no effects, timer map untouched), and integer-typed
arguments at `"float64"` positions are coerced in place to floats; but
the context position (declared `""`) is unchecked — a wrong value there,
or a non-string argument to `State`, panics instead of erroring. -/
theorem builtin_typed_errors :
    (∀ b sig, sigOf b = some sig → ∀ (r : ℚ) auts c timers args e,
      checkArguments args sig = .error e →
      runBuiltin b r auts c timers args = ⟨.err e, timers, []⟩) ∧
    (∀ (args : List GoValue) (types : List ArgType),
      args.length ≠ types.length →
      checkArguments args types = .error (.arity types.length args.length)) ∧
    (∀ (args : List GoValue) (types : List ArgType) (res : List GoValue),
      checkArguments args types = .ok res →
      res.length = args.length ∧
      (∀ j : Nat, types[j]? = some .float64 →
        res[j]? = (args[j]?).map floatCoerce ∧
        ∃ q, res[j]? = some (.float q))) ∧
    (∀ (r : ℚ) auts c timers args, args.length ≠ 1 →
      runBuiltin .state r auts c timers args = ⟨.err .stateArity, timers, []⟩) := by
  refine ⟨?_, ?_, ?_, ?_⟩
  · intro b sig hb r auts c timers args e h
    cases b
    case state => simp [sigOf] at hb
    all_goals
      simp only [sigOf, Option.some.injEq] at hb
      subst hb
      simp [runBuiltin, sigOf, h]
  · intro args types h
    simp [checkArguments, h]
  · intro args types res h
    have hlen : args.length = types.length := by
      by_contra hne
      simp [checkArguments, hne] at h
    unfold checkArguments at h
    rw [if_neg (by omega : ¬ args.length ≠ types.length)] at h
    obtain ⟨l, f⟩ := checkArgsLoop_float_coerce args types 0 res h
    refine ⟨l hlen, fun j hj => ?_⟩
    have hjlt : j < types.length := by
      by_contra hge
      rw [List.getElem?_eq_none (by omega)] at hj
      cases hj
    exact f j hj (by omega)
  · intro r auts c timers args h
    simp [runBuiltin, sigOf, stateCall, h]

/-- Witness for **C4 amended**: `Log` called with one argument errors with
the arity mismatch, timers untouched, no effect run. -/
theorem builtin_typed_errors_witness :
    runBuiltin .log 0 [] { device := "d", fields := [], devices := [] } []
      [.context] = ⟨.err (.arity 2 1), [], []⟩ := by
  exact builtin_typed_errors.1 .log [.any, .string] rfl 0 []
    { device := "d", fields := [], devices := [] } [] [.context]
    (.arity 2 1) rfl

/-- **C1, counterexample**: the claim "if `loadAutomata` returns an error
… the compiled-expression cache (`parsingCache`) [is] left exactly as
[it was] before the reload attempt" fails: `loadAutomata` executes
`parsingCache = map[string]*govaluate.EvaluableExpression{}` *before*
precompiling, so a reload whose only expression `bad` fails to compile
returns an error yet leaves the cache emptied (the old key `old` is
gone), while the `automata` reference is indeed unchanged. -/
theorem loadAutomata_failed_reload_clears_cache :
    (loadAutomata (fun s => decide (s ≠ "bad")) ⟨none, ["old"]⟩
      (.loaded [⟨[[⟨"bad", []⟩]], []⟩])).2 = some (.compile ["bad"]) ∧
    (loadAutomata (fun s => decide (s ≠ "bad")) ⟨none, ["old"]⟩
      (.loaded [⟨[[⟨"bad", []⟩]], []⟩])).1.cache = [] := by
  exact ⟨rfl, rfl⟩

/-- **C1, amended**: on any failing reload the active rule-set reference
(`automata`) is left unchanged, and a failure of the template or of
`gofsm.Load` also leaves the cache unchanged; but a reload failing
expression precompilation returns the collected compile errors with the
cache already rebuilt from scratch for the rejected candidate.  On
success the new rule set and a wholly rebuilt cache replace the old
ones. -/
theorem loadAutomata_all_or_nothing (compileOk : String → Bool)
    (st : RuleSetState) (input : ConfigInput) :
    ((loadAutomata compileOk st input).2.isSome →
      (loadAutomata compileOk st input).1.automata = st.automata) ∧
    (input = .templateParseError ∨ input = .templateExecError ∨
        input = .loadError →
      loadAutomata compileOk st input =
        (st, some (match input with
          | .templateParseError => .templateParse
          | .templateExecError => .templateExec
          | _ => .load))) ∧
    (∀ auts, input = .loaded auts →
      (compileAll compileOk [] (exprsOfConfig auts)).2 = [] →
      loadAutomata compileOk st input =
        (⟨some auts, (compileAll compileOk [] (exprsOfConfig auts)).1⟩,
          none)) ∧
    (∀ auts, input = .loaded auts →
      (compileAll compileOk [] (exprsOfConfig auts)).2 ≠ [] →
      loadAutomata compileOk st input =
        (⟨st.automata, (compileAll compileOk [] (exprsOfConfig auts)).1⟩,
          some (.compile (compileAll compileOk [] (exprsOfConfig auts)).2))) := by
  refine ⟨?_, ?_, ?_, ?_⟩
  · intro hsome
    cases input with
    | templateParseError => rfl
    | templateExecError => rfl
    | loadError => rfl
    | loaded auts =>
      simp only [loadAutomata] at hsome ⊢
      by_cases h : (compileAll compileOk [] (exprsOfConfig auts)).2 = []
      · rw [if_pos h] at hsome
        simp at hsome
      · rw [if_neg h]
  · rintro (rfl | rfl | rfl) <;> rfl
  · intro auts hin h
    subst hin
    simp [loadAutomata, h]
  · intro auts hin h
    subst hin
    simp [loadAutomata, h]

/-- Witness for **C1 amended**: a template parse failure leaves both the
rule set and the cache exactly as they were. -/
theorem loadAutomata_all_or_nothing_witness :
    loadAutomata (fun _ => true) ⟨none, ["old"]⟩ .templateParseError =
      (⟨none, ["old"]⟩, some .templateParse) := by
  exact (loadAutomata_all_or_nothing (fun _ => true) ⟨none, ["old"]⟩
    .templateParseError).2.1 (Or.inl rfl)

/-- **C3, counterexample**: the claim "at service startup (in `Run`,
before entering the event loop), the durable snapshot file is read" is
false of the code: the pre-loop body of `Run` (embedded statement by
statement as `runStartupSteps`) contains no snapshot read —
`Service.RestoreFile` exists but `Run` never calls it. -/
theorem run_startup_never_reads_snapshot :
    StartupStep.readSnapshotFile ∉ runStartupSteps := by
  decide

/-- **C3, amended**: `RestoreFile`, when invoked, opens and decodes the
snapshot and applies it via `Restore` — with no `Change` emitted and no
event published, since gofsm's `Restore` only rewrites state/`since` —
and on an open or decode failure logs and restores nothing; but `Run`
itself never invokes it: startup proceeds with an empty restored set,
relying on retained-event replay and the reconciliation window. -/
theorem restoreFile_behaviour :
    (restoreFile .openError = none) ∧
    (restoreFile .decodeError = none) ∧
    (∀ snap, restoreFile (.decoded snap) = some snap) ∧
    StartupStep.readSnapshotFile ∉ runStartupSteps ∧
    StartupStep.loadAutomataCall ∈ runStartupSteps ∧
    StartupStep.armStateRestoredTimer ∈ runStartupSteps := by
  refine ⟨rfl, rfl, fun _ => rfl, by decide, by decide, by decide⟩

/-! ### Lemmas on `formatChars` -/

theorem isWordChar_dollar : isWordChar '$' = false := by decide

theorem takeWhile_all_append (w rest : List Char)
    (hw : ∀ ch ∈ w, isWordChar ch = true) (hb : boundaryOk rest) :
    (w ++ rest).takeWhile isWordChar = w := by
  induction w with
  | nil =>
    cases rest with
    | nil => rfl
    | cons r t =>
      simp only [List.nil_append]
      exact List.takeWhile_cons_of_neg (by simp [hb r t rfl])
  | cons a w' ih =>
    have ha : isWordChar a = true := hw a (List.mem_cons_self _ _)
    simp only [List.cons_append, List.takeWhile_cons_of_pos ha]
    rw [ih (fun ch hch => hw ch (List.mem_cons_of_mem _ hch))]

theorem hasMatch_dollar_false {p : List Char}
    (hm : hasMatch ('$' :: p) = false) :
    p.takeWhile isWordChar = [] ∧ hasMatch p = false := by
  simpa [hasMatch] using hm

theorem hasMatch_cons_false {a : Char} {p : List Char} (ha : ¬ a = '$')
    (hm : hasMatch (a :: p) = false) : hasMatch p = false := by
  simpa [hasMatch, ha] using hm

theorem formatChars_of_no_match (c : ChangeCtx) :
    ∀ l : List Char, hasMatch l = false → formatChars c l = some l := by
  have main : ∀ (n : Nat) (l : List Char), l.length ≤ n →
      hasMatch l = false → formatChars c l = some l := by
    intro n
    induction n with
    | zero =>
      intro l hl _
      cases l with
      | nil => rw [formatChars.eq_1]
      | cons a t => simp at hl
    | succ n ih =>
      intro l hl hm
      cases l with
      | nil => rw [formatChars.eq_1]
      | cons ch rest =>
        by_cases hch : ch = '$'
        · subst hch
          obtain ⟨htw, hm'⟩ := hasMatch_dollar_false hm
          rw [formatChars.eq_2, htw, if_pos rfl,
            ih rest (by simp only [List.length_cons] at hl; omega) hm']
        · rw [formatChars.eq_3 c ch rest (fun e => hch e),
            ih rest (by simp only [List.length_cons] at hl; omega)
              (hasMatch_cons_false hch hm)]
  intro l
  exact main l.length l le_rfl

theorem ctxGet_total (c : ChangeCtx) (hcaps : (deviceOf c).caps ≠ [])
    (name : String) : ctxGet c name ≠ none := by
  unfold ctxGet
  split
  · simp
  · simp
  · simp
  · cases hc : (deviceOf c).caps with
    | nil => exact absurd hc hcaps
    | cons c0 t => simp
  · simp
  · simp
  · simp
  · simp
  · cases h : lookupA c.fields name <;> simp

theorem formatChars_total (c : ChangeCtx)
    (h : ∀ name, ctxGet c name ≠ none) :
    ∀ l : List Char, (formatChars c l).isSome = true := by
  have main : ∀ (n : Nat) (l : List Char), l.length ≤ n →
      (formatChars c l).isSome = true := by
    intro n
    induction n with
    | zero =>
      intro l hl
      cases l with
      | nil => rw [formatChars.eq_1]; rfl
      | cons a t => simp at hl
    | succ n ih =>
      intro l hl
      cases l with
      | nil => rw [formatChars.eq_1]; rfl
      | cons ch rest =>
        have hrlen : rest.length ≤ n := by
          simp only [List.length_cons] at hl; omega
        by_cases hch : ch = '$'
        · subst hch
          rw [formatChars.eq_2]
          by_cases htw : rest.takeWhile isWordChar = []
          · rw [htw, if_pos rfl]
            obtain ⟨r, hr⟩ := Option.isSome_iff_exists.mp (ih rest hrlen)
            rw [hr]
            rfl
          · rw [if_neg htw]
            have hdlen : (rest.drop (rest.takeWhile isWordChar).length).length ≤ n := by
              simp only [List.length_drop]; omega
            cases hg : ctxGet c (String.mk (rest.takeWhile isWordChar)) with
            | none => exact absurd hg (h _)
            | some o =>
              cases o with
              | none =>
                obtain ⟨r, hr⟩ := Option.isSome_iff_exists.mp (ih _ hdlen)
                rw [hr]
                rfl
              | some v =>
                obtain ⟨r, hr⟩ := Option.isSome_iff_exists.mp (ih _ hdlen)
                rw [hr]
                rfl
        · rw [formatChars.eq_3 c ch rest (fun e => hch e)]
          obtain ⟨r, hr⟩ := Option.isSome_iff_exists.mp (ih rest hrlen)
          rw [hr]
          rfl
  intro l
  exact main l.length l le_rfl

theorem formatChars_subst (c : ChangeCtx) (w rest : List Char)
    (hw : w ≠ []) (hwall : ∀ ch ∈ w, isWordChar ch = true)
    (hb : boundaryOk rest) :
    ∀ p : List Char, hasMatch p = false →
      formatChars c (p ++ '$' :: (w ++ rest)) =
        match ctxGet c (String.mk w) with
        | none => none
        | some none =>
          match formatChars c rest with
          | none => none
          | some r => some (p ++ '$' :: (w ++ r))
        | some (some v) =>
          match formatChars c rest with
          | none => none
          | some r => some (p ++ ((sprint v).toList ++ r)) := by
  intro p
  induction p with
  | nil =>
    intro _
    rw [List.nil_append, formatChars.eq_2,
      takeWhile_all_append w rest hwall hb, if_neg hw, List.drop_left]
    cases hg : ctxGet c (String.mk w) with
    | none => rfl
    | some o =>
      cases o with
      | none => cases hf : formatChars c rest <;> simp
      | some v => cases hf : formatChars c rest <;> simp
  | cons a p' ih =>
    intro hm
    by_cases hch : a = '$'
    · subst hch
      obtain ⟨htw, hm'⟩ := hasMatch_dollar_false hm
      have hp : (p' ++ '$' :: (w ++ rest)).takeWhile isWordChar = [] := by
        cases p' with
        | nil =>
          simp only [List.nil_append]
          exact List.takeWhile_cons_of_neg (by simp [isWordChar_dollar])
        | cons b t =>
          have hb0 : isWordChar b = false := by
            by_contra hbt
            rw [List.takeWhile_cons_of_pos (by simpa using hbt)] at htw
            cases htw
          simp only [List.cons_append]
          exact List.takeWhile_cons_of_neg (by simp [hb0])
      rw [List.cons_append, formatChars.eq_2, hp, if_pos rfl, ih hm']
      cases hg : ctxGet c (String.mk w) with
      | none => rfl
      | some o =>
        cases o with
        | none => cases hf : formatChars c rest <;> simp
        | some v => cases hf : formatChars c rest <;> simp
    · rw [List.cons_append, formatChars.eq_3 c a _ (fun e => hch e),
        ih (hasMatch_cons_false hch hm)]
      cases hg : ctxGet c (String.mk w) with
      | none => rfl
      | some o =>
        cases o with
        | none => cases hf : formatChars c rest <;> simp
        | some v => cases hf : formatChars c rest <;> simp

/-- **C7, counterexample**: the claim quantifies over every message and
every `ChangeContext`, but `Format("$cap")` on a context whose triggering
device has no configured capabilities panics (`d.Caps[0]` indexes an
empty slice inside `Get`), instead of replacing or passing the name
through: the embedding returns the panic marker `none`, not a string. -/
theorem format_cap_panics :
    formatCtx { device := "x", fields := [], devices := [] } "$cap" = none := by
  have hs := formatChars_subst { device := "x", fields := [], devices := [] }
    ['c', 'a', 'p'] [] (by decide) (by decide) (fun r t ht => by cases ht) []
    rfl
  have hg : ctxGet { device := "x", fields := [], devices := [] }
      (String.mk ['c', 'a', 'p']) = none := by decide
  rw [hg] at hs
  have he : "$cap".toList = [] ++ '$' :: (['c', 'a', 'p'] ++ []) := by decide
  show (formatChars _ "$cap".toList).map String.mk = none
  rw [he, hs]
  rfl

/-- **C7, amended**: on every context whose triggering device resolves to
at least one capability (so no lookup can panic), `Format` is total,
returns text without `$name` occurrences unchanged, and rewrites each
maximal `$name` occurrence to the string form of the resolved value when
the lookup succeeds and leaves it verbatim — `$` included — when it
fails; a `$cap` lookup against a capability-less device panics instead
(see the counterexample). -/
theorem format_interpolation (c : ChangeCtx)
    (hcaps : (deviceOf c).caps ≠ []) :
    (∀ msg : String, (formatCtx c msg).isSome = true) ∧
    (∀ msg : String, hasMatch msg.toList = false → formatCtx c msg = some msg) ∧
    (∀ w rest p : List Char, w ≠ [] → (∀ ch ∈ w, isWordChar ch = true) →
      boundaryOk rest → hasMatch p = false →
      formatChars c (p ++ '$' :: (w ++ rest)) =
        match ctxGet c (String.mk w) with
        | none => none
        | some none =>
          match formatChars c rest with
          | none => none
          | some r => some (p ++ '$' :: (w ++ r))
        | some (some v) =>
          match formatChars c rest with
          | none => none
          | some r => some (p ++ ((sprint v).toList ++ r))) := by
  refine ⟨?_, ?_, ?_⟩
  · intro msg
    simp only [formatCtx]
    obtain ⟨r, hr⟩ := Option.isSome_iff_exists.mp
      (formatChars_total c (ctxGet_total c hcaps) msg.toList)
    rw [hr]
    rfl
  · intro msg hm
    simp only [formatCtx]
    rw [formatChars_of_no_match c msg.toList hm]
    rfl
  · intro w rest p hw hwall hb hm
    exact formatChars_subst c w rest hw hwall hb p hm

/-- Witness for **C7 amended**: over `frontDoorCtx`, `$command` resolves
to `open`, text without placeholders is unchanged, and the unresolvable
`$zzz` passes through verbatim. -/
theorem format_interpolation_witness :
    formatCtx frontDoorCtx "Door $command now" = some "Door open now" ∧
    formatCtx frontDoorCtx "no placeholders" = some "no placeholders" ∧
    formatCtx frontDoorCtx "$zzz stays" = some "$zzz stays" := by
  have h := format_interpolation frontDoorCtx (by decide)
  refine ⟨?_, h.2.1 "no placeholders" (by decide), ?_⟩
  · have hbnd : boundaryOk (' ' :: "now".toList) := by
      intro r t ht
      injection ht with h1 h2
      rw [← h1]
      decide
    have h3 := h.2.2 "command".toList (' ' :: "now".toList) "Door ".toList
      (by decide) (by decide) hbnd (by decide)
    have he : "Door $command now".toList =
        "Door ".toList ++ '$' :: ("command".toList ++ (' ' :: "now".toList)) := by
      decide
    have hg : ctxGet frontDoorCtx (String.mk "command".toList) =
        some (some (.str "open")) := by decide
    have hrest : formatChars frontDoorCtx (' ' :: "now".toList) =
        some (' ' :: "now".toList) :=
      formatChars_of_no_match _ _ (by decide)
    simp only [formatCtx, he, h3, hg, hrest]
    decide
  · have hbnd : boundaryOk (' ' :: "stays".toList) := by
      intro r t ht
      injection ht with h1 h2
      rw [← h1]
      decide
    have h3 := h.2.2 "zzz".toList (' ' :: "stays".toList) []
      (by decide) (by decide) hbnd rfl
    have he : "$zzz stays".toList =
        [] ++ '$' :: ("zzz".toList ++ (' ' :: "stays".toList)) := by decide
    have hg : ctxGet frontDoorCtx (String.mk "zzz".toList) = some none := by
      decide
    have hrest : formatChars frontDoorCtx (' ' :: "stays".toList) =
        some (' ' :: "stays".toList) :=
      formatChars_of_no_match _ _ (by decide)
    simp only [formatCtx, he, h3, hg, hrest]
    decide

end Gohome
